import Mathlib

/-
Verification of the ULD packing program (`main.py`).

The program packs rectangular cuboid packages into ULD containers: a lattice
placement search (`find_next_position` / `is_position_valid`), an overlap
predicate (`do_packages_overlap`), a per-package stability predicate
(`is_stable`), a fitness scorer (`fitness_function`) and a randomized
constructor of candidate solutions (`create_initial_population`).

Embedding conventions:
- Python integers are `Nat` for dimensions and weights (the data model fixes
  them non-negative) and `Int` for cuboid coordinates and the fitness score.
- `Package.position` is `Option` of a 6-tuple, mirroring `None` before
  placement.
- Unpacking a `None` position inside the overlap scan raises a `TypeError`
  in Python; this is modelled by the `Except Unit` result of
  `is_position_valid` / `find_next_position` / `add_package`
  (`.error ()` = exception propagates, `.ok` = normal return).
- Python methods mutate `self` and their argument in place; here each
  method returns the updated copies (`add_package` returns the Python
  boolean together with the updated package and container).
- Object aliasing (several containers holding references to one mutable
  package object) is modelled separately by a store-passing semantics
  (`World`): containers hold package identifiers and every read
  dereferences the current store, exactly as Python attribute reads do.
-/

/-- A 6-tuple `(x0, y0, z0, x1, y1, z1)`: origin corner and far corner of an
axis-aligned cuboid, as stored in `Package.position`. -/
abbrev Pos : Type := Int × Int × Int × Int × Int × Int

/-- `class Package` from `main.py` (constructor fields plus the three mutable
fields initialised to `None` / `False` / `"NONE"`). -/
structure Package where
  id : String
  length : Nat
  width : Nat
  height : Nat
  weight : Nat
  priority : Bool
  cost_delay : Option Int
  position : Option Pos
  placed : Bool
  uld_id : String
deriving Repr, DecidableEq

/-- `class ULD` from `main.py`: `packages` is the ordered list of placed
packages (snapshot of the referenced objects), `total_weight` the running
total. -/
structure ULD where
  id : String
  length : Nat
  width : Nat
  height : Nat
  weight_limit : Nat
  packages : List Package
  total_weight : Nat
deriving Repr, DecidableEq

/-- `ULD.do_packages_overlap(pos1, pos2)`: the method ignores `self`, so it is
embedded as a standalone function.  Source:
`not (x1_1 <= x0_2 or x0_1 >= x1_2 or y1_1 <= y0_2 or y0_1 >= y1_2 or
z1_1 <= z0_2 or z0_1 >= z1_2)`. -/
def do_packages_overlap (pos1 pos2 : Pos) : Bool :=
  let (x01, y01, z01, x11, y11, z11) := pos1
  let (x02, y02, z02, x12, y12, z12) := pos2
  !(decide (x11 ≤ x02) || decide (x01 ≥ x12) ||
    decide (y11 ≤ y02) || decide (y01 ≥ y12) ||
    decide (z11 ≤ z02) || decide (z01 ≥ z12))

/-- The cuboid occupied by `package` when its origin is put at `(x, y, z)`:
`(x, y, z, x + length, y + width, z + height)`.  This exact tuple is built at
both use sites in the source (`is_position_valid` and `add_package`). -/
def package_cuboid (p : Package) (x y z : Nat) : Pos :=
  ((x : Int), (y : Int), (z : Int),
   (x : Int) + (p.length : Int), (y : Int) + (p.width : Int), (z : Int) + (p.height : Int))

/-- The loop body of `is_position_valid`: walk the placed packages in order;
unpacking a `None` position raises (`.error ()`), the first overlap returns
`False`, reaching the end returns `True`. -/
def check_overlaps (cand : Pos) : List Package → Except Unit Bool
  | [] => .ok true
  | q :: rest =>
    match q.position with
    | none => .error ()
    | some qp => if do_packages_overlap qp cand then .ok false else check_overlaps cand rest

/-- `ULD.can_fit(package)`. -/
def ULD.can_fit (u : ULD) (p : Package) : Bool :=
  decide (u.total_weight + p.weight ≤ u.weight_limit) &&
  decide (p.length ≤ u.length) && decide (p.width ≤ u.width) && decide (p.height ≤ u.height)

/-- `ULD.is_position_valid(package, x, y, z)`. -/
def ULD.is_position_valid (u : ULD) (p : Package) (x y z : Nat) : Except Unit Bool :=
  if x + p.length ≤ u.length ∧ y + p.width ≤ u.width ∧ z + p.height ≤ u.height then
    check_overlaps (package_cuboid p x y z) u.packages
  else .ok false

/-- The candidate origins visited by the triple `for` loop of
`find_next_position`: `x` over `range(self.length)` outermost, then `y` over
`range(self.width)`, then `z` over `range(self.height)` innermost. -/
def scan_points (u : ULD) : List (Nat × Nat × Nat) :=
  (List.range u.length).flatMap (fun x =>
    (List.range u.width).flatMap (fun y =>
      (List.range u.height).map (fun z => (x, y, z))))

/-- The scanning loop of `find_next_position`: return the first candidate that
`is_position_valid` accepts, propagating a raised exception. -/
def first_valid (u : ULD) (p : Package) : List (Nat × Nat × Nat) → Except Unit (Option (Nat × Nat × Nat))
  | [] => .ok none
  | (x, y, z) :: rest =>
    match u.is_position_valid p x y z with
    | .error e => .error e
    | .ok true => .ok (some (x, y, z))
    | .ok false => first_valid u p rest

/-- `ULD.find_next_position(package)`: `(0, 0, 0)` for an empty container,
otherwise the lattice scan; `none` models Python's `None` ("no valid
position"). -/
def ULD.find_next_position (u : ULD) (p : Package) : Except Unit (Option (Nat × Nat × Nat)) :=
  match u.packages with
  | [] => .ok (some (0, 0, 0))
  | _ :: _ => first_valid u p (scan_points u)

/-- `ULD.add_package(package)`: returns Python's boolean result together with
the updated package and container (the method mutates both in place; a
returned `(false, p, u)` is the unchanged pair).  `if position and
self.can_fit(package)`: any 3-tuple (including `(0,0,0)`) is truthy, `None`
is falsy, so the test is exactly `some _` plus `can_fit`. -/
def ULD.add_package (u : ULD) (p : Package) : Except Unit (Bool × Package × ULD) :=
  match u.find_next_position p with
  | .error e => .error e
  | .ok none => .ok (false, p, u)
  | .ok (some (x0, y0, z0)) =>
    if u.can_fit p then
      let p2 : Package :=
        { p with position := some (package_cuboid p x0 y0 z0), placed := true, uld_id := u.id }
      .ok (true, p2,
        { u with packages := u.packages ++ [p2], total_weight := u.total_weight + p.weight })
    else .ok (false, p, u)

/-- `is_stable(package, uld)`: the early-`return False` loop is equivalent to
`all` over the placed packages.  `if package.position and
other_package.position` skips any pair in which either position is `None`
(a 6-tuple is always truthy). -/
def is_stable (package : Package) (uld : ULD) : Bool :=
  uld.packages.all (fun other =>
    match package.position, other.position with
    | some pp, some op =>
      !(decide (pp.2.2.1 > op.2.2.1) && decide (package.weight > other.weight))
    | _, _ => true)

/-- `fitness_function(ulds_list, packages_list)`. -/
def fitness_function (ulds_list : List ULD) (packages_list : List Package) : Int :=
  let num_priority_uld : Nat :=
    ulds_list.countP (fun uld => uld.packages.any (fun pkg => pkg.priority))
  let unplaced_economy_packages : Nat :=
    packages_list.countP (fun pkg => !pkg.placed && !pkg.priority)
  let wp_sp : Int × Nat :=
    ulds_list.foldl (fun acc uld =>
      ((if uld.weight_limit < uld.total_weight then
          acc.1 + ((uld.total_weight : Int) - (uld.weight_limit : Int)) * 10
        else acc.1),
       uld.packages.foldl (fun c pkg => if is_stable pkg uld then c else c + 1) acc.2))
      ((0 : Int), (0 : Nat))
  let weight_penalty : Int := wp_sp.1
  let stability_penalty : Nat := wp_sp.2
  let unplaced_packages_penalty : Int := 50 * (unplaced_economy_packages : Int)
  let priority_spread_penalty : Int :=
    if 1 < num_priority_uld then 5000 * (num_priority_uld : Int) else 0
  0 - weight_penalty - (stability_penalty : Int) * 5 - unplaced_packages_penalty
    - priority_spread_penalty

/-- One `add_package` call against a container, keeping only the container
state (a call that returns `False` or raises leaves it unchanged). -/
def add_step (u : ULD) (p : Package) : ULD :=
  match u.add_package p with
  | .ok (_, _, u2) => u2
  | .error _ => u

/-- A sequence of `add_package` calls against one container. -/
def apply_add_seq (u : ULD) (ps : List Package) : ULD :=
  ps.foldl add_step u

/-- Strict lexicographic order on candidate origins, `x` most significant,
then `y`, then `z` — the order in which `find_next_position` scans. -/
def lex_lt (a b : Nat × Nat × Nat) : Prop :=
  a.1 < b.1 ∨ (a.1 = b.1 ∧ (a.2.1 < b.2.1 ∨ (a.2.1 = b.2.1 ∧ a.2.2 < b.2.2)))

/-- Shorthand: candidate `pt` lies on the lattice scanned over `u`'s extents. -/
def in_lattice (u : ULD) (pt : Nat × Nat × Nat) : Prop :=
  pt.1 < u.length ∧ pt.2.1 < u.width ∧ pt.2.2 < u.height

/-- Shorthand: `is_position_valid` accepts candidate `pt` for `p` in `u`. -/
def valid_at (u : ULD) (p : Package) (pt : Nat × Nat × Nat) : Prop :=
  u.is_position_valid p pt.1 pt.2.1 pt.2.2 = .ok true

/-- Heap view of a ULD: `packages` holds package identifiers (Python object
references); every field read goes through the current store. -/
structure WULD where
  id : String
  length : Nat
  width : Nat
  height : Nat
  weight_limit : Nat
  packages : List String
  total_weight : Nat
deriving Repr, DecidableEq

/-- Object store: the mutable `Package` and `ULD` objects of a run, keyed by
their (unique) identifiers. -/
structure World where
  pkgs : List Package
  ulds : List WULD
deriving Repr, DecidableEq

/-- Dereference a list of package identifiers in the current store. -/
def World.deref (w : World) (ids : List String) : List Package :=
  ids.filterMap (fun i => w.pkgs.find? (fun p => p.id == i))

/-- The value a heap ULD denotes under the current store: its own fields plus
the current state of every referenced package. -/
def WULD.toULD (u : WULD) (w : World) : ULD :=
  { id := u.id, length := u.length, width := u.width, height := u.height,
    weight_limit := u.weight_limit, packages := w.deref u.packages,
    total_weight := u.total_weight }

/-- `uld.add_package(package)` under the store semantics: run the method on
the dereferenced container; on success write the mutated package back to the
store (visible to every container referencing it) and update the container's
reference list and running total.  A `False` return or a raised exception
leaves the store unchanged (the exception would abort the whole run; no trace
used below reaches it). -/
def World.add_package (w : World) (uid pid : String) : World :=
  match w.ulds.find? (fun u => u.id == uid), w.pkgs.find? (fun p => p.id == pid) with
  | some u, some p =>
    match (u.toULD w).add_package p with
    | .ok (true, p2, _) =>
      { pkgs := w.pkgs.map (fun q => if q.id == pid then p2 else q),
        ulds := w.ulds.map (fun v =>
          if v.id == uid then
            { v with packages := v.packages ++ [pid], total_weight := v.total_weight + p.weight }
          else v) }
    | _ => w
  | _, _ => w

/-- The inner two loops of `create_initial_population` for one candidate: for
every container (in order) attempt to place every package (in the given
order). -/
def World.greedy_pass (w : World) (uldIds : List String) (order : List String) : World :=
  uldIds.foldl (fun wa uid => order.foldl (fun wb pid => wb.add_package uid pid) wa) w

/-- `create_initial_population(ulds_list, packages_list, population_size)`.
`random.shuffle` is modelled by an explicit per-iteration ordering of the
package identifiers (`orders`, one entry per iteration, so
`population_size = orders.length`).  The Python function appends the very
`uld` objects to every solution, so each returned candidate aliases the same
containers and packages; what a caller observes for every candidate is the
final store, which is what this embedding returns. -/
def create_initial_population (w : World) (uldIds : List String) (orders : List (List String)) : World :=
  orders.foldl (fun wa order => wa.greedy_pass uldIds order) w

/-- Fresh package with no mutable state set, as built by the `Package`
constructor. -/
def mkPackage (pkg_id : String) (length width height weight : Nat)
    (priority : Bool) (cost_delay : Option Int) : Package :=
  { id := pkg_id, length := length, width := width, height := height,
    weight := weight, priority := priority, cost_delay := cost_delay,
    position := none, placed := false, uld_id := "NONE" }

/-- Fresh container, as built by the `ULD` constructor. -/
def mkULD (uld_id : String) (length width height weight_limit : Nat) : ULD :=
  { id := uld_id, length := length, width := width, height := height,
    weight_limit := weight_limit, packages := [], total_weight := 0 }

/-- Witness container for the placement-search claim: `2 × 1 × 1`, one package
already occupying `(0,0,0)..(1,1,1)`. -/
def wC1_uld : ULD :=
  { mkULD "U1" 2 1 1 10 with
    packages := [{ mkPackage "A" 1 1 1 1 false none with
                   position := some (0, 0, 0, 1, 1, 1), placed := true, uld_id := "U1" }],
    total_weight := 1 }

/-- Witness package for the placement-search claim: a unit cube. -/
def wC1_pkg : Package := mkPackage "B" 1 1 1 1 false none

/-- Witness container for the capacity / commit claims: empty `2 × 2 × 2`,
weight limit `10`. -/
def wC3_uld : ULD := mkULD "U" 2 2 2 10

/-- Witness package for the capacity / commit claims: unit cube of weight 3. -/
def wC3_pkg : Package := mkPackage "P" 1 1 1 3 false none

/-- The package state `wC3_pkg` reaches when `wC3_uld.add_package` commits it. -/
def wC3_pkgPlaced : Package :=
  { wC3_pkg with position := some (0, 0, 0, 1, 1, 1), placed := true, uld_id := "U" }

/-- The container state after `wC3_uld.add_package wC3_pkg` commits. -/
def wC3_uldAfter : ULD :=
  { wC3_uld with packages := [wC3_pkgPlaced], total_weight := 3 }

/-- §8 fitness example: priority package of weight 110 recorded in `fitU1`. -/
def fitPkgA : Package :=
  { mkPackage "PA" 10 10 10 110 true none with
    position := some (0, 0, 0, 10, 10, 10), placed := true, uld_id := "U1" }

/-- §8 fitness example: priority package of weight 5 recorded in `fitU2`. -/
def fitPkgB : Package :=
  { mkPackage "PB" 10 10 10 5 true none with
    position := some (0, 0, 0, 10, 10, 10), placed := true, uld_id := "U2" }

/-- §8 fitness example: one unplaced non-priority package. -/
def fitPkgC : Package := mkPackage "PC" 10 10 10 7 false (some 100)

/-- §8 fitness example: container of capacity 100 holding 110 units of weight. -/
def fitU1 : ULD :=
  { mkULD "U1" 100 100 100 100 with packages := [fitPkgA], total_weight := 110 }

/-- §8 fitness example: second container, holding a priority package. -/
def fitU2 : ULD :=
  { mkULD "U2" 100 100 100 50 with packages := [fitPkgB], total_weight := 5 }

/-- §8 stability example: item A at z-range `[0,10)`, weight 5. -/
def stA : Package :=
  { mkPackage "A" 10 10 10 5 false none with
    position := some (0, 0, 0, 10, 10, 10), placed := true, uld_id := "U" }

/-- §8 stability example: item B at z-range `[10,20)`, weight 8, above A. -/
def stB : Package :=
  { mkPackage "B" 10 10 10 8 false none with
    position := some (0, 0, 10, 10, 10, 20), placed := true, uld_id := "U" }

/-- §8 stability example variant: B with weight 3 instead of 8. -/
def stB3 : Package := { stB with weight := 3 }

/-- §8 stability example container holding A and the heavy B. -/
def stUld : ULD :=
  { mkULD "U" 20 20 20 100 with packages := [stA, stB], total_weight := 13 }

/-- §8 stability example container holding A and the light B. -/
def stUldB3 : ULD :=
  { mkULD "U" 20 20 20 100 with packages := [stA, stB3], total_weight := 8 }

/-- An already-placed package (as left behind by a successful `add_package`
into container `U1`). -/
def bugP : Package :=
  { mkPackage "P" 1 1 1 1 false none with
    position := some (0, 0, 0, 1, 1, 1), placed := true, uld_id := "U1" }

/-- A second, still-empty container offered the already-placed `bugP`. -/
def bugU2 : ULD := mkULD "U2" 1 1 1 10

/-- The state `bugP` is mutated to when `bugU2.add_package` re-places it. -/
def bugPAfter : Package := { bugP with uld_id := "U2" }

/-- Store for the non-overlap trace: unit-cube packages `A`, `B` and
containers `U1` (`2 × 1 × 1`) and `U2` (`1 × 1 × 1`), all initial. -/
def c2w0 : World :=
  { pkgs := [mkPackage "A" 1 1 1 1 false none, mkPackage "B" 1 1 1 1 false none],
    ulds := [⟨"U1", 2, 1, 1, 10, [], 0⟩, ⟨"U2", 1, 1, 1, 10, [], 0⟩] }

/-- The non-overlap trace: place `A` in `U1`, then `B` in `U1`, then `B`
(already placed) in `U2`. -/
def c2w3 : World := ((c2w0.add_package "U1" "A").add_package "U1" "B").add_package "U2" "B"

/-- Store for the population-independence trace: unit-cube packages `P`, `Q`
of weight 1 and a single container of weight limit 1 (room for one of them). -/
def c9w0 : World :=
  { pkgs := [mkPackage "P" 1 1 1 1 false none, mkPackage "Q" 1 1 1 1 false none],
    ulds := [⟨"U1", 1, 1, 1, 1, [], 0⟩] }

/-- A container holding only a package whose position was never set. -/
def c10uld : ULD :=
  { mkULD "U" 5 5 5 50 with packages := [mkPackage "X" 1 1 1 2 false none], total_weight := 2 }

/-- One axis: the code's interval test is equivalent to half-open interval
intersection, provided both intervals are non-degenerate. -/
theorem interval_overlap_iff (a0 a1 b0 b1 : Int) (h1 : a0 < a1) (h2 : b0 < b1) :
    (¬(a1 ≤ b0 ∨ a0 ≥ b1)) ↔ ∃ t : Int, a0 ≤ t ∧ t < a1 ∧ b0 ≤ t ∧ t < b1 := by
  constructor
  · intro h
    rcases le_total a0 b0 with hc | hc
    · exact ⟨b0, hc, by omega, le_refl _, by omega⟩
    · exact ⟨a0, le_refl _, by omega, hc, by omega⟩
  · rintro ⟨t, ht1, ht2, ht3, ht4⟩
    omega

/-- Claim C5, as stated, is false: the claim only assumes `origin ≤ far
corner`, but on the degenerate cuboid `(1,1,1)..(1,2,2)` (zero extent along
x, so `origin ≤ far` holds on every axis) `do_packages_overlap` answers
`true` against `(0,0,0)..(2,2,2)` even though the half-open x-intervals
`[1,1)` and `[0,2)` share no point. -/
theorem C5_counterexample :
    ((1 : Int) ≤ 1 ∧ (1 : Int) ≤ 2 ∧ (1 : Int) ≤ 2) ∧
    ((0 : Int) ≤ 2 ∧ (0 : Int) ≤ 2 ∧ (0 : Int) ≤ 2) ∧
    do_packages_overlap (1, 1, 1, 1, 2, 2) (0, 0, 0, 2, 2, 2) = true ∧
    ¬∃ t : Int, (1 ≤ t ∧ t < 1) ∧ (0 ≤ t ∧ t < 2) := by
  refine ⟨by norm_num, by norm_num, by rfl, ?_⟩
  rintro ⟨t, ⟨ht1, ht2⟩, -⟩
  omega

/-- Claim C5 (amended: the cuboids must have positive extents, `origin < far`
on every axis): `do_packages_overlap` answers `true` iff the half-open
intervals `[origin, far)` intersect on all three axes simultaneously; the
function is symmetric in its two arguments; and cuboids merely touching on a
face (one's far coordinate equal to the other's origin coordinate on some
axis) are never overlapping. -/
theorem C5_overlap_characterization :
    (∀ x01 y01 z01 x11 y11 z11 x02 y02 z02 x12 y12 z12 : Int,
      x01 < x11 → y01 < y11 → z01 < z11 → x02 < x12 → y02 < y12 → z02 < z12 →
      (do_packages_overlap (x01, y01, z01, x11, y11, z11) (x02, y02, z02, x12, y12, z12) = true ↔
        (∃ t : Int, x01 ≤ t ∧ t < x11 ∧ x02 ≤ t ∧ t < x12) ∧
        (∃ t : Int, y01 ≤ t ∧ t < y11 ∧ y02 ≤ t ∧ t < y12) ∧
        (∃ t : Int, z01 ≤ t ∧ t < z11 ∧ z02 ≤ t ∧ t < z12))) ∧
    (∀ pos1 pos2 : Pos, do_packages_overlap pos1 pos2 = do_packages_overlap pos2 pos1) ∧
    (∀ x01 y01 z01 x11 y11 z11 x02 y02 z02 x12 y12 z12 : Int,
      (x11 = x02 ∨ y11 = y02 ∨ z11 = z02 ∨ x12 = x01 ∨ y12 = y01 ∨ z12 = z01) →
      do_packages_overlap (x01, y01, z01, x11, y11, z11) (x02, y02, z02, x12, y12, z12) = false) := by
  refine ⟨?_, ?_, ?_⟩
  · intro x01 y01 z01 x11 y11 z11 x02 y02 z02 x12 y12 z12 hx1 hy1 hz1 hx2 hy2 hz2
    rw [← interval_overlap_iff x01 x11 x02 x12 hx1 hx2,
        ← interval_overlap_iff y01 y11 y02 y12 hy1 hy2,
        ← interval_overlap_iff z01 z11 z02 z12 hz1 hz2]
    simp only [do_packages_overlap, Bool.not_eq_true', Bool.or_eq_false_iff,
      decide_eq_false_iff_not, ge_iff_le, not_le]
    constructor
    · rintro ⟨⟨⟨⟨⟨h1, h2⟩, h3⟩, h4⟩, h5⟩, h6⟩
      exact ⟨by omega, by omega, by omega⟩
    · rintro ⟨hx, hy, hz⟩
      refine ⟨⟨⟨⟨⟨by omega, by omega⟩, by omega⟩, by omega⟩, by omega⟩, by omega⟩
  · rintro ⟨a0, b0, c0, a1, b1, c1⟩ ⟨d0, e0, f0, d1, e1, f1⟩
    rw [Bool.eq_iff_iff]
    simp only [do_packages_overlap, Bool.not_eq_true', Bool.or_eq_false_iff,
      decide_eq_false_iff_not, ge_iff_le, not_le]
    constructor <;> intro h <;> omega
  · intro x01 y01 z01 x11 y11 z11 x02 y02 z02 x12 y12 z12 htouch
    simp only [do_packages_overlap, Bool.not_eq_false', Bool.or_eq_true_iff,
      decide_eq_true_eq, ge_iff_le]
    omega

/-- Witness for the amended C5 theorem at the unit cubes at `(0,0,0)` and
`(0,0,0)` (all hypotheses hold and the intervals do intersect). -/
theorem C5_witness :
    ((0 : Int) < 1 ∧ (0 : Int) < 1 ∧ (0 : Int) < 1 ∧ (0 : Int) < 1 ∧ (0 : Int) < 1 ∧ (0 : Int) < 1) ∧
    (do_packages_overlap (0, 0, 0, 1, 1, 1) (0, 0, 0, 1, 1, 1) = true ↔
      (∃ t : Int, 0 ≤ t ∧ t < 1 ∧ 0 ≤ t ∧ t < 1) ∧
      (∃ t : Int, 0 ≤ t ∧ t < 1 ∧ 0 ≤ t ∧ t < 1) ∧
      (∃ t : Int, 0 ≤ t ∧ t < 1 ∧ 0 ≤ t ∧ t < 1)) :=
  ⟨by norm_num,
   C5_overlap_characterization.1 0 0 0 1 1 1 0 0 0 1 1 1
     (by norm_num) (by norm_num) (by norm_num) (by norm_num) (by norm_num) (by norm_num)⟩

/-- Claim C6: for an item with a recorded position, `is_stable` answers `true`
iff no item in the same container has origin height (third position
component) strictly below the subject's and weight strictly below the
subject's; and the §8 example: B at z-range `[10,20)` of weight 8 above A at
`[0,10)` of weight 5 is unstable, while with weight 3 it is stable. -/
theorem C6_is_stable_characterization :
    (∀ (u : ULD) (p : Package) (pp : Pos), p.position = some pp →
      (is_stable p u = true ↔
        ∀ q ∈ u.packages, ∀ qp : Pos, q.position = some qp →
          ¬(qp.2.2.1 < pp.2.2.1 ∧ q.weight < p.weight))) ∧
    is_stable stB stUld = false ∧
    is_stable stB3 stUldB3 = true := by
  refine ⟨?_, by rfl, by rfl⟩
  intro u p pp hpp
  unfold is_stable
  rw [List.all_eq_true]
  constructor
  · intro hall q hq qp hqp hcon
    have h2 := hall q hq
    simp only [hpp, hqp, gt_iff_lt, Bool.not_eq_true', Bool.and_eq_false_iff,
      decide_eq_false_iff_not, not_lt] at h2
    omega
  · intro hall q hq
    simp only [hpp]
    cases hq2 : q.position with
    | none => rfl
    | some qp =>
      have h3 := hall q hq qp hq2
      simp only [gt_iff_lt, Bool.not_eq_true', Bool.and_eq_false_iff,
        decide_eq_false_iff_not, not_lt]
      omega

/-- Witness for C6 at the §8 example: B (weight 8, z-origin 10) against the
container holding A (weight 5, z-origin 0) and B itself. -/
theorem C6_witness :
    stB.position = some (0, 0, 10, 10, 10, 20) ∧
    (is_stable stB stUld = true ↔
      ∀ q ∈ stUld.packages, ∀ qp : Pos, q.position = some qp →
        ¬(qp.2.2.1 < 10 ∧ q.weight < 8)) :=
  ⟨rfl, C6_is_stable_characterization.1 stUld stB (0, 0, 10, 10, 10, 20) rfl⟩

/-- Case analysis of a non-raising `add_package` call: either the returned
triple is `(False, p, u)` with both objects untouched, or a candidate origin
was found, `can_fit` passed, and every commit field is written together. -/
theorem add_package_cases (u : ULD) (p : Package) (r : Bool × Package × ULD)
    (h : u.add_package p = .ok r) :
    r = (false, p, u) ∨
    ∃ x y z : Nat,
      u.find_next_position p = .ok (some (x, y, z)) ∧ u.can_fit p = true ∧
      r = (true,
           { p with position := some (package_cuboid p x y z), placed := true, uld_id := u.id },
           { u with
             packages := u.packages ++
               [{ p with position := some (package_cuboid p x y z), placed := true, uld_id := u.id }],
             total_weight := u.total_weight + p.weight }) := by
  unfold ULD.add_package at h
  cases hf : u.find_next_position p with
  | error e => rw [hf] at h; cases h
  | ok o =>
    rw [hf] at h
    cases o with
    | none =>
      left
      simp only [Except.ok.injEq] at h
      exact h.symm
    | some xyz =>
      obtain ⟨x, y, z⟩ := xyz
      dsimp only at h
      by_cases hc : u.can_fit p = true
      · rw [if_pos hc] at h
        simp only [Except.ok.injEq] at h
        exact Or.inr ⟨x, y, z, rfl, hc, h.symm⟩
      · rw [if_neg hc] at h
        simp only [Except.ok.injEq] at h
        exact Or.inl h.symm

/-- Claim C7: `add_package` is all-or-nothing — a `False` return leaves the
package and the container exactly as they were, and a `True` return sets the
placed flag, the container identifier and the full 6-value position, appends
the (mutated) package to the placed sequence and adds its weight to the
running total, all together. -/
theorem C7_add_package_all_or_nothing (u : ULD) (p : Package) (b : Bool)
    (p2 : Package) (u2 : ULD) (h : u.add_package p = .ok (b, p2, u2)) :
    (b = false → p2 = p ∧ u2 = u) ∧
    (b = true →
      p2.placed = true ∧ p2.uld_id = u.id ∧
      (∃ x y z : Nat, p2.position = some (package_cuboid p x y z)) ∧
      u2.packages = u.packages ++ [p2] ∧
      u2.total_weight = u.total_weight + p.weight) := by
  rcases add_package_cases u p _ h with h1 | ⟨x, y, z, hf, hc, h1⟩
  · simp only [Prod.mk.injEq] at h1
    obtain ⟨hb, hp, hu⟩ := h1
    constructor
    · intro _; exact ⟨hp, hu⟩
    · intro hb2; rw [hb] at hb2; cases hb2
  · simp only [Prod.mk.injEq] at h1
    obtain ⟨hb, hp, hu⟩ := h1
    constructor
    · intro hb2; rw [hb] at hb2; cases hb2
    · intro _
      subst hp hu
      exact ⟨rfl, rfl, ⟨x, y, z, rfl⟩, rfl, rfl⟩

/-- Witness for C7: committing a `1×1×1` package of weight 3 into the empty
`2×2×2` container sets every field together. -/
theorem C7_witness :
    wC3_uld.add_package wC3_pkg = .ok (true, wC3_pkgPlaced, wC3_uldAfter) ∧
    (true = true →
      wC3_pkgPlaced.placed = true ∧ wC3_pkgPlaced.uld_id = wC3_uld.id ∧
      (∃ x y z : Nat, wC3_pkgPlaced.position = some (package_cuboid wC3_pkg x y z)) ∧
      wC3_uldAfter.packages = wC3_uld.packages ++ [wC3_pkgPlaced] ∧
      wC3_uldAfter.total_weight = wC3_uld.total_weight + wC3_pkg.weight) :=
  ⟨rfl, (C7_add_package_all_or_nothing wC3_uld wC3_pkg true wC3_pkgPlaced wC3_uldAfter rfl).2⟩

/-- A single `add_package` call preserves `total_weight ≤ weight_limit`. -/
theorem add_step_preserves_cap (u : ULD) (p : Package)
    (hc : u.total_weight ≤ u.weight_limit) :
    (add_step u p).total_weight ≤ (add_step u p).weight_limit := by
  unfold add_step
  cases hr : u.add_package p with
  | error e => exact hc
  | ok r =>
    rcases add_package_cases u p r hr with h1 | ⟨x, y, z, hf, hcf, h1⟩
    · rw [h1]; exact hc
    · rw [h1]
      simp only [ULD.can_fit, Bool.and_eq_true, decide_eq_true_eq] at hcf
      exact hcf.1.1.1

/-- Claim C3: after any sequence of `add_package` calls on a container that
started empty, the running total never exceeds the weight limit; and any
single committed placement satisfied `existing total + new weight ≤ limit`
at commit time, adding exactly the item's weight. -/
theorem C3_capacity_invariant :
    (∀ (i : String) (L W H cap : Nat) (ps : List Package),
      (apply_add_seq (mkULD i L W H cap) ps).total_weight ≤
        (apply_add_seq (mkULD i L W H cap) ps).weight_limit) ∧
    (∀ (u : ULD) (p p2 : Package) (u2 : ULD),
      u.add_package p = .ok (true, p2, u2) →
      u.total_weight + p.weight ≤ u.weight_limit ∧
      u2.total_weight = u.total_weight + p.weight ∧
      u2.weight_limit = u.weight_limit) := by
  constructor
  · intro i L W H cap ps
    have main : ∀ (l : List Package) (u : ULD), u.total_weight ≤ u.weight_limit →
        (apply_add_seq u l).total_weight ≤ (apply_add_seq u l).weight_limit := by
      intro l
      induction l with
      | nil => intro u hu; exact hu
      | cons p t ih =>
        intro u hu
        have h1 : apply_add_seq u (p :: t) = apply_add_seq (add_step u p) t := by
          simp [apply_add_seq]
        rw [h1]
        exact ih (add_step u p) (add_step_preserves_cap u p hu)
    exact main ps (mkULD i L W H cap) (by simp [mkULD])
  · intro u p p2 u2 h
    rcases add_package_cases u p _ h with h1 | ⟨x, y, z, hf, hcf, h1⟩
    · simp only [Prod.mk.injEq] at h1
      cases h1.1
    · simp only [Prod.mk.injEq] at h1
      obtain ⟨-, -, hu⟩ := h1
      subst hu
      simp only [ULD.can_fit, Bool.and_eq_true, decide_eq_true_eq] at hcf
      exact ⟨hcf.1.1.1, rfl, rfl⟩

/-- Witness for C3: the committed placement of `wC3_pkg` (weight 3) into the
empty container of limit 10. -/
theorem C3_witness :
    wC3_uld.add_package wC3_pkg = .ok (true, wC3_pkgPlaced, wC3_uldAfter) ∧
    (wC3_uld.total_weight + wC3_pkg.weight ≤ wC3_uld.weight_limit ∧
     wC3_uldAfter.total_weight = wC3_uld.total_weight + wC3_pkg.weight ∧
     wC3_uldAfter.weight_limit = wC3_uld.weight_limit) :=
  ⟨rfl, C3_capacity_invariant.2 wC3_uld wC3_pkg wC3_pkgPlaced wC3_uldAfter rfl⟩

/-- Claim C8 fails on the code: `add_package` never looks at the `placed`
flag, so a package already placed in container `U1` (flag set, position and
container identifier recorded) offered to the empty container `U2` is
accepted again — the call returns `True`, appends the package to `U2` and
overwrites its container identifier, instead of failing with no mutation. -/
theorem C8_replace_already_placed :
    bugP.placed = true ∧
    bugP.uld_id = "U1" ∧
    bugU2.add_package bugP =
      .ok (true, bugPAfter, { bugU2 with packages := [bugPAfter], total_weight := 1 }) ∧
    bugPAfter.uld_id = "U2" :=
  ⟨rfl, rfl, rfl, rfl⟩

/-- Claim C2 fails on the code: in the three-call trace `c2w3` (place `A` in
`U1`, `B` in `U1`, then the already-placed `B` in `U2`), container `U1`
still records both `A` and `B`, but the shared `B` object's position was
overwritten by the `U2` placement to `(0,0,0)..(1,1,1)` — the very cuboid
`A` occupies — so two distinct items recorded as placed in the same
container now overlap. -/
theorem C2_nonoverlap_violation :
    (c2w3.ulds.find? (fun u => u.id == "U1")).map WULD.packages = some ["A", "B"] ∧
    (c2w3.pkgs.find? (fun p => p.id == "A")).bind Package.position = some (0, 0, 0, 1, 1, 1) ∧
    (c2w3.pkgs.find? (fun p => p.id == "B")).bind Package.position = some (0, 0, 0, 1, 1, 1) ∧
    do_packages_overlap (0, 0, 0, 1, 1, 1) (0, 0, 0, 1, 1, 1) = true :=
  ⟨rfl, rfl, rfl, rfl⟩

/-- Claim C9 fails on the code: `create_initial_population` mutates the one
shared set of containers/packages across iterations.  With orders
`[P, Q]` then `[Q, P]` on a container with room for a single unit package,
the second candidate's observed outcome still holds `P` (left over from the
first iteration), while the greedy pass run on the pristine template with
the second candidate's order `[Q, P]` holds `Q`. -/
theorem C9_candidates_not_independent :
    ((create_initial_population c9w0 ["U1"] [["P", "Q"], ["Q", "P"]]).ulds.find?
        (fun u => u.id == "U1")).map WULD.packages = some ["P"] ∧
    ((c9w0.greedy_pass ["U1"] ["Q", "P"]).ulds.find?
        (fun u => u.id == "U1")).map WULD.packages = some ["Q"] ∧
    (["P"] : List String) ≠ ["Q"] :=
  ⟨rfl, rfl, by decide⟩

/-- The inner stability loop of `fitness_function` counts the packages of a
container that fail `is_stable`. -/
theorem stab_count_foldl (u : ULD) (l : List Package) (c : Nat) :
    l.foldl (fun c pkg => if is_stable pkg u then c else c + 1) c
      = c + l.countP (fun pkg => !is_stable pkg u) := by
  induction l generalizing c with
  | nil => simp
  | cons a t ih =>
    simp only [List.foldl_cons, List.countP_cons, ih]
    by_cases h : is_stable a u
    · simp [h]
    · simp [h]
      omega

/-- The per-container loop of `fitness_function` splits into the
weight-penalty sum and the stability-failure count. -/
theorem fitness_fold_eq (l : List ULD) (a : Int) (b : Nat) :
    l.foldl (fun acc uld =>
      ((if uld.weight_limit < uld.total_weight then
          acc.1 + ((uld.total_weight : Int) - (uld.weight_limit : Int)) * 10
        else acc.1),
       uld.packages.foldl (fun c pkg => if is_stable pkg uld then c else c + 1) acc.2))
      (a, b)
    = (a + (l.map (fun u => if u.weight_limit < u.total_weight then
              ((u.total_weight : Int) - (u.weight_limit : Int)) * 10 else 0)).sum,
       b + (l.map (fun u => u.packages.countP (fun pkg => !is_stable pkg u))).sum) := by
  induction l generalizing a b with
  | nil => simp
  | cons x t ih =>
    simp only [List.foldl_cons]
    rw [ih, stab_count_foldl]
    simp only [List.map_cons, List.sum_cons, Prod.mk.injEq]
    refine ⟨?_, by omega⟩
    by_cases h : x.weight_limit < x.total_weight
    · simp only [if_pos h]
      ring
    · simp only [if_neg h]
      ring

/-- Closed form of `fitness_function`: minus the sum of the four penalty
terms (weight excess × 10, 5 × stability failures, 50 × unplaced
non-priority items, and 5000 × the priority-container count when it exceeds
one). -/
theorem fitness_function_eq (ulds_list : List ULD) (packages_list : List Package) :
    fitness_function ulds_list packages_list =
      -( (ulds_list.map (fun u =>
            (max 0 ((u.total_weight : Int) - (u.weight_limit : Int))) * 10)).sum
         + 5 * (((ulds_list.map (fun u =>
             u.packages.countP (fun p => !is_stable p u))).sum : Nat) : Int)
         + 50 * ((packages_list.countP (fun p => !p.placed && !p.priority) : Nat) : Int)
         + (if 1 < ulds_list.countP (fun u => u.packages.any (fun p => p.priority))
            then 5000 * ((ulds_list.countP
                (fun u => u.packages.any (fun p => p.priority)) : Nat) : Int)
            else 0) ) := by
  unfold fitness_function
  simp only [fitness_fold_eq, Nat.zero_add, zero_add]
  have hmax : (fun u : ULD => if u.weight_limit < u.total_weight then
        ((u.total_weight : Int) - (u.weight_limit : Int)) * 10 else 0)
      = (fun u : ULD => (max 0 ((u.total_weight : Int) - (u.weight_limit : Int))) * 10) := by
    funext u
    by_cases h : u.weight_limit < u.total_weight
    · rw [if_pos h, max_eq_right]
      have : (u.weight_limit : Int) < (u.total_weight : Int) := by exact_mod_cast h
      omega
    · rw [if_neg h, max_eq_left, zero_mul]
      have : (u.total_weight : Int) ≤ (u.weight_limit : Int) := by
        exact_mod_cast Nat.le_of_not_lt h
      omega
  rw [hmax]
  ring

/-- Claim C4: `fitness_function` returns exactly minus the sum of the four
penalty terms, and the §8 example (capacity 100 holding 110 of weight, one
unplaced non-priority item, priority items spread over two containers, no
stability failures) evaluates to `-10150`. -/
theorem C4_fitness_formula :
    (∀ (ulds_list : List ULD) (packages_list : List Package),
      fitness_function ulds_list packages_list =
        -( (ulds_list.map (fun u =>
              (max 0 ((u.total_weight : Int) - (u.weight_limit : Int))) * 10)).sum
           + 5 * (((ulds_list.map (fun u =>
               u.packages.countP (fun p => !is_stable p u))).sum : Nat) : Int)
           + 50 * ((packages_list.countP (fun p => !p.placed && !p.priority) : Nat) : Int)
           + (if 1 < ulds_list.countP (fun u => u.packages.any (fun p => p.priority))
              then 5000 * ((ulds_list.countP
                  (fun u => u.packages.any (fun p => p.priority)) : Nat) : Int)
              else 0) )) ∧
    fitness_function [fitU1, fitU2] [fitPkgA, fitPkgB, fitPkgC] = -10150 :=
  ⟨fitness_function_eq, by rfl⟩

/-- Claim C10: `is_stable` is total on items without a recorded position —
it returns `true` whenever the subject's position is unset, any comparison
pair in which the other item's position is unset is skipped, and in
`fitness_function` packages without positions contribute nothing to the
stability penalty (with every recorded package unpositioned the stability
term vanishes from the score). -/
theorem C10_is_stable_unset_positions :
    (∀ (u : ULD) (p : Package), p.position = none → is_stable p u = true) ∧
    (∀ (u : ULD) (p q : Package), q.position = none →
      is_stable p { u with packages := q :: u.packages } = is_stable p u) ∧
    (∀ (ulds_list : List ULD) (packages_list : List Package),
      (∀ u ∈ ulds_list, ∀ p ∈ u.packages, p.position = none) →
      fitness_function ulds_list packages_list =
        -( (ulds_list.map (fun u =>
              (max 0 ((u.total_weight : Int) - (u.weight_limit : Int))) * 10)).sum
           + 50 * ((packages_list.countP (fun p => !p.placed && !p.priority) : Nat) : Int)
           + (if 1 < ulds_list.countP (fun u => u.packages.any (fun p => p.priority))
              then 5000 * ((ulds_list.countP
                  (fun u => u.packages.any (fun p => p.priority)) : Nat) : Int)
              else 0) )) := by
  have hnone : ∀ (u : ULD) (p : Package), p.position = none → is_stable p u = true := by
    intro u p hp
    unfold is_stable
    rw [List.all_eq_true]
    intro q hq
    simp only [hp]
  refine ⟨hnone, ?_, ?_⟩
  · intro u p q hq
    unfold is_stable
    cases hp : p.position with
    | none => simp
    | some pp => simp [hq]
  · intro ulds_list packages_list hall
    rw [fitness_function_eq]
    have hzero : (ulds_list.map (fun u =>
        u.packages.countP (fun p => !is_stable p u))).sum = 0 := by
      apply List.sum_eq_zero
      intro n hn
      rw [List.mem_map] at hn
      obtain ⟨u, hu, rfl⟩ := hn
      rw [List.countP_eq_zero]
      intro p hp
      simp [hnone u p (hall u hu p hp)]
    rw [hzero]
    push_cast
    ring

/-- Witness for C10 at a package whose position was never set, inside a
container whose only recorded package is also unpositioned. -/
theorem C10_witness :
    ((mkPackage "X" 1 1 1 2 false none).position = none ∧
      is_stable (mkPackage "X" 1 1 1 2 false none) c10uld = true) ∧
    ((∀ u ∈ [c10uld], ∀ p ∈ u.packages, p.position = none) ∧
      fitness_function [c10uld] [] =
        -( ([c10uld].map (fun u =>
              (max 0 ((u.total_weight : Int) - (u.weight_limit : Int))) * 10)).sum
           + 50 * ((([] : List Package).countP (fun p => !p.placed && !p.priority) : Nat) : Int)
           + (if 1 < [c10uld].countP (fun u => u.packages.any (fun p => p.priority))
              then 5000 * (([c10uld].countP
                  (fun u => u.packages.any (fun p => p.priority)) : Nat) : Int)
              else 0) )) := by
  have h1 : ∀ u ∈ [c10uld], ∀ p ∈ u.packages, p.position = none := by
    intro u hu p hp
    simp only [List.mem_singleton] at hu
    subst hu
    simp only [c10uld, mkULD, mkPackage, List.mem_singleton] at hp
    subst hp
    rfl
  exact ⟨⟨rfl, C10_is_stable_unset_positions.1 c10uld _ rfl⟩,
         ⟨h1, C10_is_stable_unset_positions.2.2 [c10uld] [] h1⟩⟩

/-- `flatMap` preserves pairwise orderedness when each block is ordered and
blocks are ordered against each other. -/
theorem pairwise_flatMap_of {α β : Type} {R : β → β → Prop} {f : α → List β} :
    ∀ (l : List α), (∀ a ∈ l, (f a).Pairwise R) →
      l.Pairwise (fun a b => ∀ x ∈ f a, ∀ y ∈ f b, R x y) →
      (l.flatMap f).Pairwise R := by
  intro l
  induction l with
  | nil => intro _ _; simp
  | cons a t ih =>
    intro h1 h2
    rw [List.flatMap_cons, List.pairwise_append]
    rw [List.pairwise_cons] at h2
    refine ⟨h1 a (List.mem_cons_self a t),
            ih (fun b hb => h1 b (List.mem_cons_of_mem a hb)) h2.2, ?_⟩
    intro x hx y hy
    rw [List.mem_flatMap] at hy
    obtain ⟨b, hb, hyb⟩ := hy
    exact h2.1 b hb x hx y hyb

/-- The scan list of `find_next_position` is strictly increasing in the
lexicographic order with `x` most significant and `z` least. -/
theorem scan_points_pairwise (u : ULD) : (scan_points u).Pairwise lex_lt := by
  unfold scan_points
  apply pairwise_flatMap_of
  · intro x _
    apply pairwise_flatMap_of
    · intro y _
      rw [List.pairwise_map]
      exact (List.pairwise_lt_range u.height).imp
        (fun hab => Or.inr ⟨rfl, Or.inr ⟨rfl, hab⟩⟩)
    · refine (List.pairwise_lt_range u.width).imp ?_
      intro y1 y2 h12
      intro p1 hp1 p2 hp2
      rw [List.mem_map] at hp1 hp2
      obtain ⟨z1, -, rfl⟩ := hp1
      obtain ⟨z2, -, rfl⟩ := hp2
      exact Or.inr ⟨rfl, Or.inl h12⟩
  · refine (List.pairwise_lt_range u.length).imp ?_
    intro x1 x2 h12
    intro p1 hp1 p2 hp2
    rw [List.mem_flatMap] at hp1 hp2
    obtain ⟨y1, -, hp1⟩ := hp1
    obtain ⟨y2, -, hp2⟩ := hp2
    rw [List.mem_map] at hp1 hp2
    obtain ⟨z1, -, rfl⟩ := hp1
    obtain ⟨z2, -, rfl⟩ := hp2
    exact Or.inl h12

/-- The scan list enumerates exactly the lattice points below the container's
extents. -/
theorem mem_scan_points (u : ULD) (pt : Nat × Nat × Nat) :
    pt ∈ scan_points u ↔ in_lattice u pt := by
  obtain ⟨x, y, z⟩ := pt
  simp only [scan_points, in_lattice, List.mem_flatMap, List.mem_map, List.mem_range]
  constructor
  · rintro ⟨a, ha, b, hb, c, hc, heq⟩
    obtain ⟨rfl, rfl, rfl⟩ := Prod.mk.injEq .. ▸ heq
    exact ⟨ha, hb, hc⟩
  · rintro ⟨hx, hy, hz⟩
    exact ⟨x, hx, y, hy, z, hz, rfl⟩

/-- `lex_lt` is asymmetric (hence irreflexive). -/
theorem lex_lt_asymm {a b : Nat × Nat × Nat} (h : lex_lt a b) : ¬ lex_lt b a := by
  unfold lex_lt at h ⊢
  omega

/-- When every placed package has a recorded position, the overlap scan does
not raise, and it answers `True` exactly when the candidate cuboid overlaps
no placed package's cuboid. -/
theorem check_overlaps_spec (cand : Pos) :
    ∀ (l : List Package), (∀ q ∈ l, q.position ≠ none) →
      (∃ b, check_overlaps cand l = .ok b) ∧
      (check_overlaps cand l = .ok true ↔
        ∀ q ∈ l, ∀ qp : Pos, q.position = some qp → do_packages_overlap qp cand = false) := by
  intro l
  induction l with
  | nil =>
    intro _
    exact ⟨⟨true, rfl⟩, by simp [check_overlaps]⟩
  | cons q t ih =>
    intro h
    have hq : q.position ≠ none := h q (List.mem_cons_self q t)
    obtain ⟨qp, hqp⟩ := Option.ne_none_iff_exists'.mp hq
    have ih2 := ih (fun r hr => h r (List.mem_cons_of_mem q hr))
    unfold check_overlaps
    rw [hqp]
    dsimp only
    by_cases hov : do_packages_overlap qp cand = true
    · rw [if_pos hov]
      refine ⟨⟨false, rfl⟩, ?_⟩
      constructor
      · intro hcontra
        cases hcontra
      · intro hall
        have := hall q (List.mem_cons_self q t) qp hqp
        rw [this] at hov
        cases hov
    · rw [if_neg hov]
      refine ⟨ih2.1, ?_⟩
      rw [ih2.2]
      constructor
      · intro hall r hr qp2 hqp2
        rcases List.mem_cons.mp hr with rfl | hr2
        · rw [hqp] at hqp2
          injection hqp2 with h3
          rw [← h3]
          exact Bool.not_eq_true _ ▸ hov
        · exact hall r hr2 qp2 hqp2
      · intro hall r hr qp2 hqp2
        exact hall r (List.mem_cons_of_mem q hr) qp2 hqp2

/-- When every placed package has a recorded position, `is_position_valid`
does not raise, and it accepts a candidate exactly when the item's cuboid
stays within the container's extents on all three axes and overlaps no
placed package's cuboid. -/
theorem is_position_valid_spec (u : ULD) (p : Package)
    (h : ∀ q ∈ u.packages, q.position ≠ none) (x y z : Nat) :
    (∃ b, u.is_position_valid p x y z = .ok b) ∧
    (u.is_position_valid p x y z = .ok true ↔
      (x + p.length ≤ u.length ∧ y + p.width ≤ u.width ∧ z + p.height ≤ u.height ∧
       ∀ q ∈ u.packages, ∀ qp : Pos, q.position = some qp →
         do_packages_overlap qp (package_cuboid p x y z) = false)) := by
  unfold ULD.is_position_valid
  by_cases hb : x + p.length ≤ u.length ∧ y + p.width ≤ u.width ∧ z + p.height ≤ u.height
  · rw [if_pos hb]
    obtain ⟨hex, hiff⟩ := check_overlaps_spec (package_cuboid p x y z) u.packages h
    refine ⟨hex, ?_⟩
    rw [hiff]
    constructor
    · intro hall
      exact ⟨hb.1, hb.2.1, hb.2.2, hall⟩
    · intro hall
      exact hall.2.2.2
  · rw [if_neg hb]
    refine ⟨⟨false, rfl⟩, ?_⟩
    constructor
    · intro hcontra
      cases hcontra
    · rintro ⟨h1, h2, h3, -⟩
      exact absurd ⟨h1, h2, h3⟩ hb

/-- The scanning loop over any candidate list: it does not raise, it answers
`none` exactly when no candidate is accepted, and an accepted answer is an
accepted candidate all of whose predecessors in the list were rejected. -/
theorem first_valid_spec (u : ULD) (p : Package)
    (h : ∀ q ∈ u.packages, q.position ≠ none) :
    ∀ (l : List (Nat × Nat × Nat)),
      (first_valid u p l ≠ .error ()) ∧
      (first_valid u p l = .ok none ↔ ∀ pt ∈ l, ¬ valid_at u p pt) ∧
      (∀ pt, first_valid u p l = .ok (some pt) →
        valid_at u p pt ∧
        ∃ l1 l2, l = l1 ++ pt :: l2 ∧ ∀ q ∈ l1, ¬ valid_at u p q) := by
  intro l
  induction l with
  | nil =>
    refine ⟨by simp [first_valid], by simp [first_valid], ?_⟩
    intro pt hpt
    simp [first_valid] at hpt
  | cons a t ih =>
    obtain ⟨x, y, z⟩ := a
    obtain ⟨bv, hbv⟩ := (is_position_valid_spec u p h x y z).1
    have hstep0 : first_valid u p ((x, y, z) :: t)
        = match u.is_position_valid p x y z with
          | .error e => .error e
          | .ok true => .ok (some (x, y, z))
          | .ok false => first_valid u p t := by
      simp only [first_valid]
    rw [hbv] at hstep0
    cases bv with
    | true =>
      dsimp only at hstep0
      have hstep : first_valid u p ((x, y, z) :: t) = .ok (some (x, y, z)) := hstep0
      have hvalid : valid_at u p (x, y, z) := hbv
      refine ⟨(by rw [hstep]; intro hc; cases hc), ?_, ?_⟩
      · rw [hstep]
        constructor
        · intro hc
          cases hc
        · intro hall
          exact absurd hvalid (hall (x, y, z) (List.mem_cons_self _ t))
      · intro pt hpt
        rw [hstep] at hpt
        have h3 : (x, y, z) = pt := by
          injection hpt with h2
          injection h2
        subst h3
        refine ⟨hvalid, [], t, rfl, ?_⟩
        intro q hq
        simp at hq
    | false =>
      dsimp only at hstep0
      have hstep : first_valid u p ((x, y, z) :: t) = first_valid u p t := hstep0
      have hinvalid : ¬ valid_at u p (x, y, z) := by
        unfold valid_at
        rw [hbv]
        intro hc
        cases hc
      refine ⟨(by rw [hstep]; exact ih.1), ?_, ?_⟩
      · rw [hstep, ih.2.1]
        constructor
        · intro hall pt hpt
          rcases List.mem_cons.mp hpt with rfl | hpt2
          · exact hinvalid
          · exact hall pt hpt2
        · intro hall pt hpt
          exact hall pt (List.mem_cons_of_mem _ hpt)
      · intro pt hpt
        rw [hstep] at hpt
        obtain ⟨hv, l1, l2, hsplit, hrej⟩ := ih.2.2 pt hpt
        refine ⟨hv, (x, y, z) :: l1, l2, by rw [hsplit, List.cons_append], ?_⟩
        intro q hq
        rcases List.mem_cons.mp hq with rfl | hq2
        · exact hinvalid
        · exact hrej q hq2

/-- Claim C1: for a container whose placed packages all carry positions, the
placement search returns `(0,0,0)` whenever the container holds no items;
otherwise it never raises, a candidate is valid exactly when the item's
cuboid stays within the container's extents and overlaps no placed
package's cuboid, a returned origin is a valid lattice point all of whose
lexicographic predecessors (x slowest, z fastest) on the lattice are
invalid, and the search returns `none` exactly when no lattice point is
valid. -/
theorem C1_find_next_position_spec (u : ULD) (p : Package)
    (h : ∀ q ∈ u.packages, q.position ≠ none) :
    (u.packages = [] → u.find_next_position p = .ok (some (0, 0, 0))) ∧
    (u.find_next_position p ≠ .error ()) ∧
    (∀ x y z : Nat, valid_at u p (x, y, z) ↔
      (x + p.length ≤ u.length ∧ y + p.width ≤ u.width ∧ z + p.height ≤ u.height ∧
       ∀ q ∈ u.packages, ∀ qp : Pos, q.position = some qp →
         do_packages_overlap qp (package_cuboid p x y z) = false)) ∧
    (u.packages ≠ [] →
      (∀ pt, u.find_next_position p = .ok (some pt) →
        in_lattice u pt ∧ valid_at u p pt ∧
        ∀ q, in_lattice u q → lex_lt q pt → ¬ valid_at u p q) ∧
      (u.find_next_position p = .ok none ↔ ∀ q, in_lattice u q → ¬ valid_at u p q)) := by
  have hfv := first_valid_spec u p h (scan_points u)
  have hemp : u.packages = [] → u.find_next_position p = .ok (some (0, 0, 0)) := by
    intro he
    unfold ULD.find_next_position
    rw [he]
  have hne_eq : u.packages ≠ [] →
      u.find_next_position p = first_valid u p (scan_points u) := by
    intro hne
    unfold ULD.find_next_position
    cases hpk : u.packages with
    | nil => exact absurd hpk hne
    | cons a t => rfl
  refine ⟨hemp, ?_, ?_, ?_⟩
  · cases hpk : u.packages with
    | nil =>
      rw [hemp hpk]
      intro hc
      cases hc
    | cons a t =>
      rw [hne_eq (by rw [hpk]; simp)]
      exact hfv.1
  · intro x y z
    exact (is_position_valid_spec u p h x y z).2
  · intro hne
    have heq := hne_eq hne
    constructor
    · intro pt hpt
      rw [heq] at hpt
      obtain ⟨hv, l1, l2, hsplit, hrej⟩ := hfv.2.2 pt hpt
      have hmem : pt ∈ scan_points u := by
        rw [hsplit]
        exact List.mem_append_right _ (List.mem_cons_self _ _)
      refine ⟨(mem_scan_points u pt).1 hmem, hv, ?_⟩
      intro q hq hlex hvq
      have hqmem : q ∈ scan_points u := (mem_scan_points u q).2 hq
      rw [hsplit] at hqmem
      rcases List.mem_append.mp hqmem with hq1 | hq2
      · exact hrej q hq1 hvq
      · rcases List.mem_cons.mp hq2 with rfl | hq3
        · exact lex_lt_asymm hlex hlex
        · have hpw := scan_points_pairwise u
          rw [hsplit] at hpw
          have h2 := (List.pairwise_append.mp hpw).2.1
          have h3 := (List.pairwise_cons.mp h2).1 q hq3
          exact lex_lt_asymm h3 hlex
    · rw [heq, hfv.2.1]
      constructor
      · intro hall q hq
        exact hall q ((mem_scan_points u q).2 hq)
      · intro hall pt hpt
        exact hall pt ((mem_scan_points u pt).1 hpt)

/-- Witness for C1: the container `2 × 1 × 1` already holding a unit cube at
`(0,0,0)` places the next unit cube at `(1,0,0)`, the first valid lattice
point in scan order. -/
theorem C1_witness :
    (∀ q ∈ wC1_uld.packages, q.position ≠ none) ∧
    wC1_uld.packages ≠ [] ∧
    wC1_uld.find_next_position wC1_pkg = .ok (some (1, 0, 0)) ∧
    in_lattice wC1_uld (1, 0, 0) ∧ valid_at wC1_uld wC1_pkg (1, 0, 0) ∧
    (∀ q, in_lattice wC1_uld q → lex_lt q (1, 0, 0) → ¬ valid_at wC1_uld wC1_pkg q) := by
  have h : ∀ q ∈ wC1_uld.packages, q.position ≠ none := by
    intro q hq
    simp only [wC1_uld, mkULD, mkPackage, List.mem_singleton] at hq
    subst hq
    simp
  have hne : wC1_uld.packages ≠ [] := by
    simp [wC1_uld, mkULD, mkPackage]
  have hfind : wC1_uld.find_next_position wC1_pkg = .ok (some (1, 0, 0)) := by rfl
  obtain ⟨hlat, hval, hmin⟩ :=
    ((C1_find_next_position_spec wC1_uld wC1_pkg h).2.2.2 hne).1 (1, 0, 0) hfind
  exact ⟨h, hne, hfind, hlat, hval, hmin⟩
